import Mathlib

/-!
Verification of the page-manipulation engine of `@pdfme/manipulator`
(`src/packages/manipulator/src/index.ts`).

A PDF document is modelled as an ordered list of pages; a page carries an
opaque content tag and a rotation attribute, which is all the engine ever
inspects or changes.  `PDFDocument.load`/`save` round-trips are identities in
this model, `copyPages` copies list elements, `addPage` appends,
`insertPage i` inserts at index `i`, `removePage i` erases index `i`, and
`setRotation` replaces the rotation attribute.  Fallible operations return
`Except String`, carrying the error messages thrown by the source.
-/

namespace Manipulator

/-- A page: opaque content plus the rotation attribute (in degrees) that
`setRotation` overwrites. -/
structure Page where
  content : Nat
  rotation : Nat
deriving DecidableEq, Repr, Inhabited

/-- The `position` option of the merge operations: `'start' | 'end' | number`
(`end` is a Lean keyword, hence `end_`). -/
inductive Position where
  | start
  | end_
  | num (p : Int)
deriving DecidableEq, Repr

/-- A `MergeItem`: either a PDF together with the optional `pages` selection
of page indices, or a template item.  Template rendering is performed by the
external `@pdfme/generator` package (out of scope here), so a template item
is modelled by the page list that `generate({ template, inputs })` produces. -/
inductive MergeItem where
  | pdf (doc : List Page) (pages : Option (List Int))
  | template (rendered : List Page)

/-- Pages contributed by one item: the body of the `for (const item of items)`
loop of `mergeAdvanced` (index.ts lines 29-55).  For a PDF item the requested
indices (default: all indices) are validated against the source page count and
the selected pages are copied in the order given; for a template item all
rendered pages are copied. -/
def collectItem : MergeItem → Except String (List Page)
  | .pdf doc pages =>
      let pageIndices := pages.getD ((List.range doc.length).map Int.ofNat)
      let maxPageIndex : Int := (doc.length : Int) - 1
      if pageIndices.any (fun idx => decide (idx < 0 ∨ idx > maxPageIndex)) then
        .error ("[@pdfme/manipulator] Invalid page index. Pages must be between 0 and " ++
          toString maxPageIndex)
      else
        .ok (pageIndices.map (fun idx => doc.getD idx.toNat default))
  | .template rendered => .ok rendered

/-- Collects the pages of all items into `allPages`, in item-list order. -/
def collectAll : List MergeItem → Except String (List Page)
  | [] => .ok []
  | it :: rest =>
      match collectItem it with
      | .error e => .error e
      | .ok ps =>
          match collectAll rest with
          | .error e => .error e
          | .ok restPs => .ok (ps ++ restPs)

/-- The `allPages.forEach((page, index) => mergedPdf.insertPage(insertIndex + index, page))`
loop of the numeric-position branch of `mergeAdvanced`: inserts the pages one
by one at consecutive indices starting from `i`. -/
def insertSeq : List Page → Nat → List Page → List Page
  | acc, _, [] => acc
  | acc, i, p :: ps => insertSeq (acc.insertIdx i p) (i + 1) ps

/-- `mergeAdvanced` (index.ts lines 16-75): collects the pages of all items
into `allPages`, then adds them to the freshly created (hence empty)
`mergedPdf`.  The `'start'` and `'end'` branches both call `addPage` (append);
the numeric branch clamps the position against `mergedPdf.getPageCount()`,
which is read before any page has been added. -/
def mergeAdvanced (items : List MergeItem) (position : Position) :
    Except String (List Page) :=
  if items.length = 0 then
    .error "[@pdfme/manipulator] At least one item is required for merging"
  else
    match collectAll items with
    | .error e => .error e
    | .ok allPages =>
      let mergedPdf : List Page := []
      match position with
      | .start => .ok (mergedPdf ++ allPages)
      | .end_ => .ok (mergedPdf ++ allPages)
      | .num p =>
          let currentPageCount : Int := (mergedPdf.length : Int)
          let insertIndex := min (max 0 p) currentPageCount
          .ok (insertSeq mergedPdf insertIndex.toNat allPages)

/-- `merge` (index.ts lines 104-110): wraps every input PDF as a full-document
`MergeItem` and delegates to `mergeAdvanced`.  The source defaults
`options.position` to `'end'`; callers of the model pass the position
explicitly. -/
def merge (pdfs : List (List Page)) (position : Position) :
    Except String (List Page) :=
  mergeAdvanced (pdfs.map (fun pdf => MergeItem.pdf pdf none)) position

/-- The fold of `mergeWithTemplates` over its entries: each entry builds the
two-item list `[currentPdf as a pdf item, the template item]` and calls
`mergeAdvanced` with the entry's position. -/
def mergeWithTemplatesGo : List Page → List (List Page × Position) →
    Except String (List Page)
  | currentPdf, [] => .ok currentPdf
  | currentPdf, (rendered, position) :: rest =>
      match mergeAdvanced
        [MergeItem.pdf currentPdf none, MergeItem.template rendered] position with
      | .error e => .error e
      | .ok next => mergeWithTemplatesGo next rest

/-- `mergeWithTemplates` (index.ts lines 77-101).  An entry is a pair of the
pages rendered from `(template, inputs)` by the external generator and the
entry's position (default `'end'` in the source; explicit here). -/
def mergeWithTemplates (basePdf : List Page)
    (templates : List (List Page × Position)) : Except String (List Page) :=
  if templates.length = 0 then
    .error "[@pdfme/manipulator] At least one template is required"
  else mergeWithTemplatesGo basePdf templates

/-- A split range `{start?: number; end?: number}` (`end` is a Lean keyword,
hence the field name `stop`). -/
structure SplitRange where
  start : Option Int
  stop : Option Int
deriving DecidableEq, Repr

/-- The `for (const { start = 0, end = numPages - 1 } of ranges)` loop of
`split`: validates each range, then copies the pages at indices
`start, start+1, ..., end` (the `Array.from` call) into a fresh document. -/
def splitGo (originalPdf : List Page) (numPages : Int) :
    List SplitRange → Except String (List (List Page))
  | [] => .ok []
  | r :: rest =>
      let start := r.start.getD 0
      let stop := r.stop.getD (numPages - 1)
      if start < 0 ∨ stop ≥ numPages ∨ start > stop then
        .error ("[@pdfme/manipulator] Invalid range: start=" ++ toString start ++
          ", end=" ++ toString stop ++ ", total pages=" ++ toString numPages)
      else
        let pages := (List.range (stop - start + 1).toNat).map
          (fun i => originalPdf.getD (i + start.toNat) default)
        match splitGo originalPdf numPages rest with
        | .error e => .error e
        | .ok restDocs => .ok (pages :: restDocs)

/-- `split` (index.ts lines 112-140). -/
def split (pdf : List Page) (ranges : List SplitRange) :
    Except String (List (List Page)) :=
  if ranges.length = 0 then
    .error "[@pdfme/manipulator] At least one range is required for splitting"
  else splitGo pdf (pdf.length : Int) ranges

/-- Stable descending insertion: the insertion step of the stable sort that
models `pages.sort((a, b) => b - a)` in `remove`.  An element is inserted
after every strictly larger element and before equal ones, which preserves
the original order of equal elements exactly as the (stable) JS sort does. -/
def insDesc (x : Int) : List Int → List Int
  | [] => [x]
  | y :: ys => if x < y then y :: insDesc x ys else x :: y :: ys

/-- Stable sort in descending order, modelling `pages.sort((a, b) => b - a)`. -/
def sortDesc : List Int → List Int
  | [] => []
  | x :: xs => insDesc x (sortDesc xs)

/-- `pdfDoc.removePage(idx)` of `@pdfme/pdf-lib`: asserts that the index is in
range and erases the page. -/
def removePageAt (doc : List Page) (idx : Int) : Except String (List Page) :=
  if 0 ≤ idx ∧ idx < (doc.length : Int) then .ok (doc.eraseIdx idx.toNat)
  else .error "index out of range"

/-- The `forEach((pageIndex) => pdfDoc.removePage(pageIndex))` fold of
`remove`. -/
def removeGo : List Page → List Int → Except String (List Page)
  | doc, [] => .ok doc
  | doc, p :: ps =>
      match removePageAt doc p with
      | .error e => .error e
      | .ok doc' => removeGo doc' ps

/-- `remove` (index.ts lines 142-158): rejects an empty index list, validates
every index against the source page count, then removes in descending index
order. -/
def remove (pdf : List Page) (pages : List Int) : Except String (List Page) :=
  if pages.length = 0 then
    .error "[@pdfme/manipulator] At least one page number is required for removal"
  else
    let numPages : Int := (pdf.length : Int)
    if pages.any (fun page => decide (page < 0 ∨ page ≥ numPages)) then
      .error ("[@pdfme/manipulator] Invalid page number: pages must be between 0 and " ++
        toString (numPages - 1))
    else removeGo pdf (sortDesc pages)

/-- Stable ascending insertion on `(pages, position)` pairs: the insertion
step of the stable sort that models `inserts.sort((a, b) => a.position - b.position)`.
An element is inserted after every strictly smaller key and before equal
ones, preserving the original order of equal keys like the (stable) JS sort. -/
def insAsc (x : List Page × Int) :
    List (List Page × Int) → List (List Page × Int)
  | [] => [x]
  | y :: ys => if y.2 < x.2 then y :: insAsc x ys else x :: y :: ys

/-- Stable sort ascending by `position`, modelling
`inserts.sort((a, b) => a.position - b.position)`. -/
def sortAsc : List (List Page × Int) → List (List Page × Int)
  | [] => []
  | x :: xs => insAsc x (sortAsc xs)

/-- The `for (let i = 0; i < inserts.length; i++)` loop of `insert`: for each
(already sorted) entry, computes `actualPos = position + offset`, rejects it
when outside `[0, numPages]`, otherwise builds the new document as
`pages before actualPos ++ inserted pages ++ pages from actualPos on`, and
increments the offset by the inserted page count. -/
def insertGo : List Page → List (List Page × Int) → Int →
    Except String (List Page)
  | currentPdf, [], _ => .ok currentPdf
  | currentPdf, (insPdf, position) :: rest, offset =>
      let actualPos := position + offset
      let numPages : Int := (currentPdf.length : Int)
      if actualPos < 0 ∨ actualPos > numPages then
        .error ("[@pdfme/manipulator] Invalid position: must be between 0 and " ++
          toString numPages)
      else
        insertGo (currentPdf.take actualPos.toNat ++ insPdf ++
          currentPdf.drop actualPos.toNat) rest (offset + (insPdf.length : Int))

/-- `insert` (index.ts lines 160-209): sorts the entries ascending by
position and folds `insertGo` with offset `0`.  The trailing load/save
round-trip of the source is an identity in this model. -/
def insert (basePdf : List Page) (inserts : List (List Page × Int)) :
    Except String (List Page) :=
  insertGo basePdf (sortAsc inserts) 0

/-- `page.setRotation` on `pages[pageNum]` guarded by the source's
`if (page)` check: an index that does not denote an existing page (negative
or past the end, where JS indexing yields `undefined`) is skipped. -/
def rotOne (pages : List Page) (pageNum : Int) (angle : Nat) : List Page :=
  if pageNum < 0 then pages
  else
    match pages[pageNum.toNat]? with
    | some page => pages.set pageNum.toNat { page with rotation := angle }
    | none => pages

/-- The `pagesToRotate.forEach` loop of `rotate`. -/
def applyRotations : List Page → List Int → Nat → List Page
  | pages, [], _ => pages
  | pages, pn :: rest, angle => applyRotations (rotOne pages pn angle) rest angle

/-- `rotate` (index.ts lines 211-252).  `degrees` is an integer (the
`Number.isInteger` check of the source always passes in this model); `%` on
JS numbers differs from Lean's `Int` `%` on negative dividends, but the
composite `((degrees % 360) + 360) % 360` normalisation and the
`degrees % 90 === 0` test agree with the source on every integer. -/
def rotate (pdf : List Page) (degrees : Int) (pageNumbers : Option (List Int)) :
    Except String (List Page) :=
  if ¬ degrees % 90 = 0 then
    .error "[@pdfme/manipulator] Rotation degrees must be a multiple of 90"
  else if pdf.length = 0 then
    .error "[@pdfme/manipulator] PDF has no pages to rotate"
  else
    let normalizedDegrees := ((degrees % 360) + 360) % 360
    if ¬ normalizedDegrees % 90 = 0 then
      .error "[@pdfme/manipulator] Rotation degrees must be a multiple of 90"
    else
      match pageNumbers with
      | some pns =>
          if pns.any (fun page => decide (page < 0 ∨ page ≥ (pdf.length : Int))) then
            .error ("[@pdfme/manipulator] Invalid page number: pages must be between 0 and " ++
              toString ((pdf.length : Int) - 1))
          else .ok (applyRotations pdf pns (normalizedDegrees % 360).toNat)
      | none =>
          .ok (applyRotations pdf ((List.range pdf.length).map Int.ofNat)
            (normalizedDegrees % 360).toNat)

/-- `move` (index.ts lines 254-279): validates `from` and `to` as references
to existing pages, returns the document unchanged when `from == to`, and
otherwise removes the page at `from` and reinserts it at `to - 1` when
`from < to`, at `to` otherwise. -/
def move (pdf : List Page) (from_ to_ : Int) : Except String (List Page) :=
  let currentPageCount : Int := (pdf.length : Int)
  if from_ < 0 ∨ from_ ≥ currentPageCount ∨ to_ < 0 ∨ to_ ≥ currentPageCount then
    .error ("[@pdfme/manipulator] Invalid page number: from=" ++ toString from_ ++
      ", to=" ++ toString to_ ++ ", total pages=" ++ toString currentPageCount)
  else if from_ = to_ then .ok pdf
  else
    let page := pdf.getD from_.toNat default
    let removed := pdf.eraseIdx from_.toNat
    let adjustedTo := if from_ < to_ then to_ - 1 else to_
    .ok (removed.insertIdx adjustedTo.toNat page)

/-- An `organize` action (the five-variant tagged union of index.ts
lines 283-289). -/
inductive OrganizeAction where
  | removeAct (position : Int)
  | insertAct (pdf : List Page) (position : Int)
  | replaceAct (pdf : List Page) (position : Int)
  | rotateAct (position : Int) (degrees : Int)
  | moveAct (from_ to_ : Int)

/-- One step of the `organize` pipeline: dispatch on the action tag to the
matching atomic operation (index.ts lines 297-330). -/
def organizeStep (currentPdf : List Page) :
    OrganizeAction → Except String (List Page)
  | .removeAct position => remove currentPdf [position]
  | .insertAct pdf position => insert currentPdf [(pdf, position)]
  | .replaceAct pdf position =>
      match remove currentPdf [position] with
      | .error e => .error e
      | .ok withoutTarget => insert withoutTarget [(pdf, position)]
  | .rotateAct position degrees => rotate currentPdf degrees (some [position])
  | .moveAct f t => move currentPdf f t

/-- The fold of `organize` over its action list. -/
def organizeGo : List Page → List OrganizeAction → Except String (List Page)
  | cur, [] => .ok cur
  | cur, a :: rest =>
      match organizeStep cur a with
      | .error e => .error e
      | .ok next => organizeGo next rest

/-- `organize` (index.ts lines 281-333). -/
def organize (pdf : List Page) (actions : List OrganizeAction) :
    Except String (List Page) :=
  if actions.length = 0 then
    .error "[@pdfme/manipulator] At least one action is required"
  else organizeGo pdf actions

/-! ### Basic lemmas about the merge family -/

lemma getD_range_map_self (doc : List Page) :
    ((List.range doc.length).map Int.ofNat).map
      (fun idx => doc.getD idx.toNat default) = doc := by
  rw [List.map_map]
  apply List.ext_getElem?
  intro n
  rw [List.getElem?_map]
  by_cases h : n < doc.length
  · rw [List.getElem?_range h, List.getElem?_eq_getElem h]
    simp [List.getD_eq_getElem?_getD, List.getElem?_eq_getElem h]
  · rw [List.getElem?_eq_none (by simpa using Nat.le_of_not_lt h),
      List.getElem?_eq_none (Nat.le_of_not_lt h)]
    rfl

lemma collectItem_pdf_none (doc : List Page) :
    collectItem (MergeItem.pdf doc none) = .ok doc := by
  simp only [collectItem, Option.getD_none]
  rw [if_neg, getD_range_map_self]
  simp only [List.any_eq_true, List.mem_map, List.mem_range, decide_eq_true_eq]
  rintro ⟨idx, ⟨i, hi, rfl⟩, habs⟩
  rw [Int.ofNat_eq_natCast] at habs
  omega

lemma collectAll_map_pdf (pdfs : List (List Page)) :
    collectAll (pdfs.map (fun pdf => MergeItem.pdf pdf none)) =
      .ok pdfs.flatten := by
  induction pdfs with
  | nil => rfl
  | cons d ds ih =>
      rw [List.map_cons, collectAll, collectItem_pdf_none, ih]
      rfl

lemma insertSeq_eq_append (ps acc : List Page) :
    insertSeq acc acc.length ps = acc ++ ps := by
  induction ps generalizing acc with
  | nil => simp [insertSeq]
  | cons p ps ih =>
      show insertSeq (acc.insertIdx acc.length p) (acc.length + 1) ps =
        acc ++ p :: ps
      rw [List.insertIdx_length_self]
      have hlen : acc.length + 1 = (acc ++ [p]).length := by simp
      rw [hlen, ih]
      simp

/-- In `mergeAdvanced` a numeric position is clamped against the page count of
the still-empty destination, so it is indistinguishable from `'end'`. -/
lemma mergeAdvanced_num_eq_end (items : List MergeItem) (p : Int) :
    mergeAdvanced items (Position.num p) = mergeAdvanced items Position.end_ := by
  unfold mergeAdvanced
  rcases Decidable.em (items.length = 0) with h | h
  · rw [if_pos h, if_pos h]
  · rw [if_neg h, if_neg h]
    cases collectAll items with
    | error e => rfl
    | ok allPages =>
        show Except.ok (insertSeq [] (min (max 0 p) ((0 : Nat) : Int)).toNat allPages) =
          Except.ok ([] ++ allPages)
        have hmin : min (max 0 p) ((0 : Nat) : Int) = 0 := by
          simp only [Nat.cast_zero]
          exact min_eq_right (le_max_left 0 p)
        rw [hmin]
        exact congrArg Except.ok (insertSeq_eq_append allPages [])

lemma merge_eq_flatten (pdfs : List (List Page)) (h : pdfs ≠ []) :
    merge pdfs Position.end_ = .ok pdfs.flatten := by
  unfold merge mergeAdvanced
  rw [if_neg (by simpa using h), collectAll_map_pdf]
  rfl

/-! ### Claim theorems: merge family, empty inputs -/

/-- Claim C5: `merge([A, B])` yields a document with `pageCount(A) +
pageCount(B)` pages whose first `pageCount(A)` pages are A's pages in order;
in general, merging N documents concatenates them in argument order,
preserving the relative page order within each source.  Formalised as: the
result is exactly the concatenation (`++` for two, `flatten` for N). -/
theorem merge_concatenates (A B : List Page) (pdfs : List (List Page))
    (h : pdfs ≠ []) :
    merge [A, B] Position.end_ = .ok (A ++ B) ∧
    merge pdfs Position.end_ = .ok pdfs.flatten := by
  refine ⟨?_, merge_eq_flatten pdfs h⟩
  rw [merge_eq_flatten [A, B] (by simp)]
  simp

/-- Witness for C5 at concrete documents. -/
theorem merge_concatenates_witness :
    merge [[({ content := 0, rotation := 0 } : Page)],
        [({ content := 1, rotation := 0 } : Page)]] Position.end_ =
      .ok [({ content := 0, rotation := 0 } : Page),
        { content := 1, rotation := 0 }] ∧
    merge [[({ content := 2, rotation := 0 } : Page)]] Position.end_ =
      .ok [({ content := 2, rotation := 0 } : Page)] :=
  merge_concatenates [{ content := 0, rotation := 0 }]
    [{ content := 1, rotation := 0 }]
    [[{ content := 2, rotation := 0 }]] (by simp)

/-- Claim C1: contrary to the spec, a `mergeWithTemplates` entry's position is
NOT resolved against the current accumulated document: `mergeAdvanced` always
appends the collected pages to a fresh empty destination, so position
`'start'` leaves the rendered template pages AFTER the current result.  On a
one-page base with one one-page template entry at `'start'`, the code returns
base page then template page, not template page then base page. -/
theorem mergeWithTemplates_start_appends_after :
    mergeWithTemplates [({ content := 0, rotation := 0 } : Page)]
        [([({ content := 1, rotation := 0 } : Page)], Position.start)] =
      .ok [({ content := 0, rotation := 0 } : Page),
        { content := 1, rotation := 0 }] ∧
    ([({ content := 0, rotation := 0 } : Page),
        { content := 1, rotation := 0 }] ≠
      [({ content := 1, rotation := 0 } : Page),
        { content := 0, rotation := 0 }]) :=
  ⟨rfl, by decide⟩

/-- Counterexample to claim C2 as stated: in `insert` an out-of-range integer
position is not clamped; the call fails with an Invalid position error. -/
theorem insert_out_of_range_not_clamped :
    insert [({ content := 0, rotation := 0 } : Page)]
        [([({ content := 1, rotation := 0 } : Page)], 5)] =
      .error "[@pdfme/manipulator] Invalid position: must be between 0 and 1" :=
  rfl

/-- Claim C2 (amended): `mergeAdvanced` silently clamps any integer position
(against its empty destination) and the position never causes a failure — the
call behaves exactly like `'end'`; `insert`, by contrast, rejects an
out-of-range integer position with an error instead of clamping; and the
page-reference operations `remove`, `rotate`, `move` reject an out-of-range
page index with a validation error. -/
theorem integer_position_handling (items : List MergeItem) (p : Int)
    (basePdf insPdf doc : List Page) (q r : Int)
    (hq : q < 0 ∨ (basePdf.length : Int) < q)
    (hr : r < 0 ∨ (doc.length : Int) ≤ r) :
    mergeAdvanced items (Position.num p) = mergeAdvanced items Position.end_ ∧
    (∃ m, insert basePdf [(insPdf, q)] = .error m) ∧
    (∃ m, remove doc [r] = .error m) ∧
    (∃ m, rotate doc 90 (some [r]) = .error m) ∧
    (∃ m, move doc r r = .error m) := by
  refine ⟨mergeAdvanced_num_eq_end items p, ?_, ?_, ?_, ?_⟩
  · have hgo : insertGo basePdf [(insPdf, q)] 0 =
        .error ("[@pdfme/manipulator] Invalid position: must be between 0 and " ++
          toString (basePdf.length : Int)) := by
      rw [insertGo, if_pos]
      rcases hq with h | h
      · exact Or.inl (by omega)
      · exact Or.inr (by omega)
    exact ⟨_, hgo⟩
  · have hrem : remove doc [r] = .error
        ("[@pdfme/manipulator] Invalid page number: pages must be between 0 and " ++
          toString ((doc.length : Int) - 1)) := by
      unfold remove
      rw [if_neg (by simp), if_pos]
      simp only [List.any_eq_true, List.mem_singleton, decide_eq_true_eq]
      exact ⟨r, rfl, by omega⟩
    exact ⟨_, hrem⟩
  · unfold rotate
    rw [if_neg (by norm_num)]
    by_cases hd : doc.length = 0
    · rw [if_pos hd]; exact ⟨_, rfl⟩
    · rw [if_neg hd, if_neg (by norm_num)]
      dsimp only
      rw [if_pos]
      · exact ⟨_, rfl⟩
      · simp only [List.any_eq_true, List.mem_singleton, decide_eq_true_eq]
        exact ⟨r, rfl, by omega⟩
  · have hmove : move doc r r = .error
        ("[@pdfme/manipulator] Invalid page number: from=" ++ toString r ++
          ", to=" ++ toString r ++ ", total pages=" ++ toString (doc.length : Int)) := by
      unfold move
      rw [if_pos]
      rcases hr with h | h
      · exact Or.inl h
      · exact Or.inr (Or.inl (by omega))
    exact ⟨_, hmove⟩

/-- Witness for C2 (amended): a 99 position is harmless in `mergeAdvanced`,
while position 5 on a 1-page base makes `insert` fail, and index 1 on a
1-page document makes `remove`, `rotate`, `move` fail. -/
theorem integer_position_handling_witness :
    mergeAdvanced [MergeItem.pdf [({ content := 0, rotation := 0 } : Page)] none]
        (Position.num 99) =
      mergeAdvanced [MergeItem.pdf [({ content := 0, rotation := 0 } : Page)] none]
        Position.end_ ∧
    (∃ m, insert [({ content := 0, rotation := 0 } : Page)]
        [([({ content := 1, rotation := 0 } : Page)], 5)] = .error m) ∧
    (∃ m, remove [({ content := 0, rotation := 0 } : Page)] [1] = .error m) ∧
    (∃ m, rotate [({ content := 0, rotation := 0 } : Page)] 90 (some [1]) = .error m) ∧
    (∃ m, move [({ content := 0, rotation := 0 } : Page)] 1 1 = .error m) :=
  integer_position_handling
    [MergeItem.pdf [{ content := 0, rotation := 0 }] none] 99
    [{ content := 0, rotation := 0 }] [{ content := 1, rotation := 0 }]
    [{ content := 0, rotation := 0 }] 5 1
    (Or.inr (by norm_num)) (Or.inr (by norm_num))

/-- Claim C9: `insert` with an empty entry list succeeds and returns the base
document unchanged, while `merge`, `mergeAdvanced`, `mergeWithTemplates`,
`split`, `remove` and `organize` all reject an empty list with an error. -/
theorem insert_empty_entry_list (basePdf doc : List Page) (position : Position) :
    insert basePdf [] = .ok basePdf ∧
    (∃ m, merge [] position = .error m) ∧
    (∃ m, mergeAdvanced [] position = .error m) ∧
    (∃ m, mergeWithTemplates doc [] = .error m) ∧
    (∃ m, split doc [] = .error m) ∧
    (∃ m, remove doc [] = .error m) ∧
    (∃ m, organize doc [] = .error m) :=
  ⟨rfl, ⟨_, rfl⟩, ⟨_, rfl⟩, ⟨_, rfl⟩, ⟨_, rfl⟩, ⟨_, rfl⟩, ⟨_, rfl⟩⟩

/-- Claim C10: `rotate` on a document with zero pages always fails, and when
`degrees` is a multiple of 90 the error is precisely the no-pages message; it
never returns the empty document unchanged. -/
theorem rotate_empty_always_fails (degrees : Int)
    (pageNumbers : Option (List Int)) :
    (∃ m, rotate ([] : List Page) degrees pageNumbers = .error m) ∧
    (degrees % 90 = 0 →
      rotate ([] : List Page) degrees pageNumbers =
        .error "[@pdfme/manipulator] PDF has no pages to rotate") := by
  by_cases h : degrees % 90 = 0
  · have hrot : rotate ([] : List Page) degrees pageNumbers =
        .error "[@pdfme/manipulator] PDF has no pages to rotate" := by
      unfold rotate
      rw [if_neg (by simpa using h)]
      rfl
    exact ⟨⟨_, hrot⟩, fun _ => hrot⟩
  · have hrot : rotate ([] : List Page) degrees pageNumbers =
        .error "[@pdfme/manipulator] Rotation degrees must be a multiple of 90" := by
      unfold rotate
      rw [if_pos h]
    exact ⟨⟨_, hrot⟩, fun habs => absurd habs h⟩

/-- Witness for C10 at `degrees = 90`, no page list. -/
theorem rotate_empty_always_fails_witness :
    (∃ m, rotate ([] : List Page) 90 none = .error m) ∧
    ((90 : Int) % 90 = 0 →
      rotate ([] : List Page) 90 none =
        .error "[@pdfme/manipulator] PDF has no pages to rotate") :=
  rotate_empty_always_fails 90 none

/-- Counterexample to claim C3 as stated: with two entries at the SAME
position, the given order matters (the stable sort keeps it), and the earlier
entry's inserted page is followed by the other entry's page, not by the page
originally at that index. -/
theorem insert_duplicate_positions_order_dependent :
    insert [({ content := 0, rotation := 0 } : Page), { content := 1, rotation := 0 }]
        [([({ content := 5, rotation := 0 } : Page)], 1),
         ([({ content := 6, rotation := 0 } : Page)], 1)] =
      .ok [({ content := 0, rotation := 0 } : Page), { content := 5, rotation := 0 },
        { content := 6, rotation := 0 }, { content := 1, rotation := 0 }] ∧
    insert [({ content := 0, rotation := 0 } : Page), { content := 1, rotation := 0 }]
        [([({ content := 6, rotation := 0 } : Page)], 1),
         ([({ content := 5, rotation := 0 } : Page)], 1)] =
      .ok [({ content := 0, rotation := 0 } : Page), { content := 6, rotation := 0 },
        { content := 5, rotation := 0 }, { content := 1, rotation := 0 }] ∧
    ([({ content := 0, rotation := 0 } : Page), { content := 5, rotation := 0 },
        { content := 6, rotation := 0 }, { content := 1, rotation := 0 }] ≠
      [({ content := 0, rotation := 0 } : Page), { content := 6, rotation := 0 },
        { content := 5, rotation := 0 }, { content := 1, rotation := 0 }]) :=
  ⟨rfl, rfl, by decide⟩

/-! ### Claim C8: move -/

/-- Claim C8: for indices within bounds, `move` with `from = to` returns the
document unchanged, and for `from ≠ to` it erases the page at `from` and
reinserts it at `to - 1` when `from < to`, at `to` unchanged otherwise. -/
theorem move_noop_and_adjusted (pdf : List Page) (from_ to_ : Int)
    (hf : 0 ≤ from_ ∧ from_ < (pdf.length : Int))
    (ht : 0 ≤ to_ ∧ to_ < (pdf.length : Int)) :
    (from_ = to_ → move pdf from_ to_ = .ok pdf) ∧
    (from_ ≠ to_ → move pdf from_ to_ =
      .ok ((pdf.eraseIdx from_.toNat).insertIdx
        (if from_ < to_ then to_ - 1 else to_).toNat
        (pdf.getD from_.toNat default))) := by
  have hguard : ¬ (from_ < 0 ∨ from_ ≥ (pdf.length : Int) ∨ to_ < 0 ∨
      to_ ≥ (pdf.length : Int)) := by omega
  constructor
  · intro he
    simp only [move]
    rw [if_neg hguard, if_pos he]
  · intro hne
    simp only [move]
    rw [if_neg hguard, if_neg hne]

/-- Witness for C8: moving page 1 onto itself in a three-page document is the
identity. -/
theorem move_noop_and_adjusted_witness :
    move [({ content := 0, rotation := 0 } : Page), { content := 1, rotation := 0 },
        { content := 2, rotation := 0 }] 1 1 =
      .ok [({ content := 0, rotation := 0 } : Page), { content := 1, rotation := 0 },
        { content := 2, rotation := 0 }] :=
  (move_noop_and_adjusted
    [{ content := 0, rotation := 0 }, { content := 1, rotation := 0 },
      { content := 2, rotation := 0 }] 1 1
    (by norm_num) (by norm_num)).1 rfl

/-! ### Claim C7: rotate -/

lemma rotOne_length (pages : List Page) (pn : Int) (a : Nat) :
    (rotOne pages pn a).length = pages.length := by
  unfold rotOne
  split
  · rfl
  · split
    · exact List.length_set pages _ _
    · rfl

lemma applyRotations_length (l : List Int) (pages : List Page) (a : Nat) :
    (applyRotations pages l a).length = pages.length := by
  induction l generalizing pages with
  | nil => rfl
  | cons pn rest ih => rw [applyRotations, ih, rotOne_length]

lemma map_rotSet_rotSet (a : Nat) (o : Option Page) :
    (o.map (fun pg => { pg with rotation := a })).map
      (fun pg => { pg with rotation := a }) =
    o.map (fun pg => { pg with rotation := a }) := by
  cases o <;> rfl

lemma rotOne_getElem? (pages : List Page) (pn : Int) (a : Nat) (i : Nat) :
    (rotOne pages pn a)[i]? =
      if 0 ≤ pn ∧ pn.toNat = i ∧ pn < (pages.length : Int) then
        pages[i]?.map (fun pg => { pg with rotation := a })
      else pages[i]? := by
  unfold rotOne
  split
  · rw [if_neg (by omega)]
  · rename_i hpn
    split
    · rename_i page hpage
      have hlt : pn.toNat < pages.length := by
        by_contra habs
        rw [List.getElem?_eq_none (Nat.le_of_not_lt habs)] at hpage
        cases hpage
      rw [List.getElem?_set]
      by_cases hi : pn.toNat = i
      · rw [if_pos hi, if_pos (by omega), if_pos ⟨by omega, hi, by omega⟩]
        subst hi
        rw [hpage]
        rfl
      · rw [if_neg hi, if_neg (by omega)]
    · rename_i hpage
      have hge : pages.length ≤ pn.toNat := by
        by_contra habs
        rw [List.getElem?_eq_getElem (Nat.lt_of_not_le habs)] at hpage
        cases hpage
      rw [if_neg (by omega)]

lemma applyRotations_getElem? (l : List Int) (pages : List Page) (a : Nat)
    (i : Nat) :
    (applyRotations pages l a)[i]? =
      if ∃ pn ∈ l, 0 ≤ pn ∧ pn.toNat = i ∧ pn < (pages.length : Int) then
        pages[i]?.map (fun pg => { pg with rotation := a })
      else pages[i]? := by
  induction l generalizing pages with
  | nil => rw [applyRotations, if_neg (by simp)]
  | cons pn rest ih =>
      rw [applyRotations, ih, rotOne_length]
      by_cases hh : 0 ≤ pn ∧ pn.toNat = i ∧ pn < (pages.length : Int)
      · have hcons : ∃ q ∈ pn :: rest, 0 ≤ q ∧ q.toNat = i ∧
            q < (pages.length : Int) := ⟨pn, List.mem_cons_self _ _, hh⟩
        rw [if_pos hcons]
        by_cases hr : ∃ q ∈ rest, 0 ≤ q ∧ q.toNat = i ∧ q < (pages.length : Int)
        · rw [if_pos hr, rotOne_getElem?, if_pos hh, map_rotSet_rotSet]
        · rw [if_neg hr, rotOne_getElem?, if_pos hh]
      · by_cases hr : ∃ q ∈ rest, 0 ≤ q ∧ q.toNat = i ∧ q < (pages.length : Int)
        · have hcons : ∃ q ∈ pn :: rest, 0 ≤ q ∧ q.toNat = i ∧
              q < (pages.length : Int) := by
            obtain ⟨q, hq, hqq⟩ := hr
            exact ⟨q, List.mem_cons_of_mem _ hq, hqq⟩
          rw [if_pos hcons, if_pos hr, rotOne_getElem?, if_neg hh]
        · have hcons : ¬ ∃ q ∈ pn :: rest, 0 ≤ q ∧ q.toNat = i ∧
              q < (pages.length : Int) := by
            rintro ⟨q, hq, hqq⟩
            rcases List.mem_cons.1 hq with rfl | hq'
            · exact hh hqq
            · exact hr ⟨q, hq', hqq⟩
          rw [if_neg hcons, if_neg hr, rotOne_getElem?, if_neg hh]

lemma applyRotations_idem (l : List Int) (pages : List Page) (a : Nat) :
    applyRotations (applyRotations pages l a) l a = applyRotations pages l a := by
  apply List.ext_getElem?
  intro i
  rw [applyRotations_getElem?, applyRotations_length]
  split_ifs with h
  · rw [applyRotations_getElem?, if_pos h, map_rotSet_rotSet]
  · rw [applyRotations_getElem?, if_neg h]

/-- Claim C7: `rotate` sets an absolute rotation of `degrees mod 360`, so
`rotate(D, 360)` equals `rotate(D, 0)`, and rotating twice with the same
degrees and page selection yields the same result as rotating once. -/
theorem rotate_absolute_idempotent (pdf D' : List Page) (degrees : Int)
    (pageNumbers : Option (List Int)) :
    rotate pdf 360 pageNumbers = rotate pdf 0 pageNumbers ∧
    (rotate pdf degrees pageNumbers = .ok D' →
      rotate D' degrees pageNumbers = .ok D') := by
  constructor
  · rfl
  · intro h
    rcases pageNumbers with _ | pns
    · simp only [rotate] at h ⊢
      split_ifs at h with h1 h2 h3
      rw [Except.ok.injEq] at h
      subst h
      simp only [applyRotations_length]
      rw [if_neg (not_not_intro h1), if_neg h2, if_neg (not_not_intro h3),
        applyRotations_idem]
    · simp only [rotate] at h ⊢
      split_ifs at h with h1 h2 h3 h4
      rw [Except.ok.injEq] at h
      subst h
      simp only [applyRotations_length]
      rw [if_neg (not_not_intro h1), if_neg h2, if_neg (not_not_intro h3),
        if_neg h4, applyRotations_idem]

/-- Witness for C7: rotating a one-page document to 90 degrees twice equals
rotating it once. -/
theorem rotate_absolute_idempotent_witness :
    rotate [({ content := 0, rotation := 0 } : Page)] 360 none =
      rotate [({ content := 0, rotation := 0 } : Page)] 0 none ∧
    rotate [({ content := 0, rotation := 90 } : Page)] 90 none =
      .ok [({ content := 0, rotation := 90 } : Page)] :=
  ⟨(rotate_absolute_idempotent [{ content := 0, rotation := 0 }]
      [{ content := 0, rotation := 0 }] 0 none).1,
    (rotate_absolute_idempotent [{ content := 0, rotation := 0 }]
      [{ content := 0, rotation := 90 }] 90 none).2 rfl⟩

/-! ### Claim C6: split -/

/-- Spec-side validity of a split range against a document, after resolving
the defaults `start = 0` and `end = lastPageIndex`: `0 ≤ start ≤ end <
pageCount`. -/
def validRange (pdf : List Page) (r : SplitRange) : Prop :=
  0 ≤ r.start.getD 0 ∧ r.start.getD 0 ≤ r.stop.getD ((pdf.length : Int) - 1) ∧
    r.stop.getD ((pdf.length : Int) - 1) < (pdf.length : Int)

instance (pdf : List Page) (r : SplitRange) : Decidable (validRange pdf r) := by
  unfold validRange
  infer_instance

/-- Spec-side content of one split output: the pages `[start..end]` of the
source (defaults resolved), in original order. -/
def sliceOf (pdf : List Page) (r : SplitRange) : List Page :=
  (pdf.drop (r.start.getD 0).toNat).take
    ((r.stop.getD ((pdf.length : Int) - 1) - r.start.getD 0 + 1).toNat)

lemma copy_eq_slice (pdf : List Page) (s e : Int) (hs : 0 ≤ s) (hse : s ≤ e)
    (he : e < (pdf.length : Int)) :
    (List.range (e - s + 1).toNat).map (fun i => pdf.getD (i + s.toNat) default) =
      (pdf.drop s.toNat).take (e - s + 1).toNat := by
  apply List.ext_getElem?
  intro n
  rw [List.getElem?_map, List.getElem?_take]
  by_cases hn : n < (e - s + 1).toNat
  · rw [if_pos hn, List.getElem?_range hn, List.getElem?_drop]
    have hlt : s.toNat + n < pdf.length := by omega
    rw [List.getElem?_eq_getElem hlt]
    show some (pdf.getD (n + s.toNat) default) = _
    rw [Nat.add_comm n s.toNat, List.getD_eq_getElem _ _ hlt]
  · rw [if_neg hn,
      List.getElem?_eq_none (by simpa using Nat.le_of_not_lt hn)]
    rfl

lemma splitGo_all_valid (pdf : List Page) (ranges : List SplitRange)
    (h : ∀ r ∈ ranges, validRange pdf r) :
    splitGo pdf (pdf.length : Int) ranges = .ok (ranges.map (sliceOf pdf)) := by
  induction ranges with
  | nil => rfl
  | cons r rest ih =>
      obtain ⟨h1, h2, h3⟩ := h r (List.mem_cons_self _ _)
      simp only [splitGo]
      rw [if_neg (by omega), copy_eq_slice pdf _ _ h1 h2 h3,
        ih (fun q hq => h q (List.mem_cons_of_mem _ hq))]
      rfl

lemma splitGo_invalid (pdf : List Page) (ranges : List SplitRange)
    (h : ∃ r ∈ ranges, ¬ validRange pdf r) :
    ∃ m, splitGo pdf (pdf.length : Int) ranges = .error m := by
  induction ranges with
  | nil =>
      obtain ⟨r, hr, _⟩ := h
      cases hr
  | cons r rest ih =>
      by_cases hr : validRange pdf r
      · have hrest : ∃ q ∈ rest, ¬ validRange pdf q := by
          obtain ⟨q, hq, hbad⟩ := h
          rcases List.mem_cons.1 hq with rfl | hq'
          · exact absurd hr hbad
          · exact ⟨q, hq', hbad⟩
        obtain ⟨m, hm⟩ := ih hrest
        refine ⟨m, ?_⟩
        obtain ⟨h1, h2, h3⟩ := hr
        simp only [splitGo]
        rw [if_neg (by omega), hm]
      · exact ⟨_, by
          simp only [splitGo]
          rw [if_pos (by unfold validRange at hr; omega)]⟩

/-- Claim C6: `split` produces one output document per range, each holding
exactly the pages `[start..end]` of the source in original order (defaults
`start = 0`, `end = lastPageIndex`), and if any single range is invalid the
whole call fails with an error and none of the outputs is returned. -/
theorem split_slices_or_rejects (pdf : List Page) (ranges : List SplitRange)
    (hne : ranges ≠ []) :
    ((∀ r ∈ ranges, validRange pdf r) →
      split pdf ranges = .ok (ranges.map (sliceOf pdf))) ∧
    ((∃ r ∈ ranges, ¬ validRange pdf r) →
      ∃ m, split pdf ranges = .error m) := by
  constructor
  · intro h
    unfold split
    rw [if_neg (by simpa using hne)]
    exact splitGo_all_valid pdf ranges h
  · intro h
    unfold split
    rw [if_neg (by simpa using hne)]
    exact splitGo_invalid pdf ranges h

/-- Witness for C6: splitting a three-page document on the range `[1..2]`
yields the document's last two pages. -/
theorem split_slices_or_rejects_witness :
    split [({ content := 0, rotation := 0 } : Page), { content := 1, rotation := 0 },
        { content := 2, rotation := 0 }] [⟨some 1, some 2⟩] =
      .ok [[({ content := 1, rotation := 0 } : Page), { content := 2, rotation := 0 }]] :=
  (split_slices_or_rejects
    [{ content := 0, rotation := 0 }, { content := 1, rotation := 0 },
      { content := 2, rotation := 0 }] [⟨some 1, some 2⟩]
    (by simp)).1 (by decide)

/-! ### Claim C4: remove -/

lemma insDesc_perm (x : Int) (l : List Int) : (insDesc x l).Perm (x :: l) := by
  induction l with
  | nil => exact List.Perm.refl _
  | cons y ys ih =>
      rw [insDesc]
      split_ifs with h
      · exact (ih.cons y).trans (List.Perm.swap x y ys)
      · exact List.Perm.refl _

lemma sortDesc_perm (l : List Int) : (sortDesc l).Perm l := by
  induction l with
  | nil => exact List.Perm.refl _
  | cons x xs ih => exact (insDesc_perm x (sortDesc xs)).trans (ih.cons x)

lemma insDesc_sorted (x : Int) (l : List Int)
    (h : List.Pairwise (fun a b => b ≤ a) l) :
    List.Pairwise (fun a b => b ≤ a) (insDesc x l) := by
  induction l with
  | nil => simp [insDesc]
  | cons y ys ih =>
      obtain ⟨hy, hys⟩ := List.pairwise_cons.1 h
      rw [insDesc]
      split_ifs with hxy
      · refine List.pairwise_cons.2 ⟨?_, ih hys⟩
        intro b hb
        rcases List.mem_cons.1 ((insDesc_perm x ys).mem_iff.1 hb) with rfl | hbys
        · omega
        · exact hy b hbys
      · refine List.pairwise_cons.2 ⟨?_, h⟩
        intro b hb
        rcases List.mem_cons.1 hb with rfl | hbys
        · omega
        · have := hy b hbys
          omega

lemma sortDesc_sorted (l : List Int) :
    List.Pairwise (fun a b => b ≤ a) (sortDesc l) := by
  induction l with
  | nil => exact List.Pairwise.nil
  | cons x xs ih => exact insDesc_sorted x (sortDesc xs) ih

lemma sortDesc_pairwise_lt (l : List Int) (hnd : l.Nodup) :
    List.Pairwise (fun a b => b < a) (sortDesc l) := by
  have hnd' : (sortDesc l).Nodup := (sortDesc_perm l).symm.nodup hnd
  have hne : List.Pairwise (fun a b : Int => a ≠ b) (sortDesc l) := hnd'
  exact ((sortDesc_sorted l).and hne).imp
    (fun hab => lt_of_le_of_ne hab.1 (Ne.symm hab.2))

/-- Spec-side description of `remove`'s guarantee: keep, in the original
order, exactly the pages whose index is not listed in `pages`; `i` is the
index (within the original document) of the first page of `doc`. -/
def idxFilter (pages : List Int) : Nat → List Page → List Page
  | _, [] => []
  | i, x :: xs =>
      if (i : Int) ∈ pages then idxFilter pages (i + 1) xs
      else x :: idxFilter pages (i + 1) xs

lemma idxFilter_of_lt (pages : List Int) (i : Nat) (doc : List Page)
    (h : ∀ q ∈ pages, q < (i : Int)) : idxFilter pages i doc = doc := by
  induction doc generalizing i with
  | nil => rfl
  | cons x xs ih =>
      rw [idxFilter, if_neg (fun hmem => absurd (h _ hmem) (by omega)),
        ih (i + 1) (fun q hq => by have := h q hq; omega)]

lemma idxFilter_congr_mem (p1 p2 : List Int)
    (hmem : ∀ q : Int, q ∈ p1 ↔ q ∈ p2) (i : Nat) (doc : List Page) :
    idxFilter p1 i doc = idxFilter p2 i doc := by
  induction doc generalizing i with
  | nil => rfl
  | cons x xs ih =>
      rw [idxFilter, idxFilter]
      by_cases hi : (i : Int) ∈ p1
      · rw [if_pos hi, if_pos ((hmem _).1 hi), ih]
      · rw [if_neg hi, if_neg (fun habs => hi ((hmem _).2 habs)), ih]

lemma idxFilter_cons_erase (p : Int) (rest : List Int) (doc : List Page)
    (i : Nat) (hi : (i : Int) ≤ p) (hub : p < (i : Int) + doc.length)
    (hrest : ∀ q ∈ rest, q < p) :
    idxFilter (p :: rest) i doc = idxFilter rest i (doc.eraseIdx (p.toNat - i)) := by
  induction doc generalizing i with
  | nil => rfl
  | cons x xs ih =>
      by_cases hip : (i : Int) = p
      · have hp0 : p.toNat - i = 0 := by omega
        rw [hp0, idxFilter, if_pos (by rw [hip]; exact List.mem_cons_self _ _),
          List.eraseIdx_cons_zero,
          idxFilter_of_lt (p :: rest) (i + 1) xs ?_,
          idxFilter_of_lt rest i xs (fun q hq => by have := hrest q hq; omega)]
        intro q hq
        rcases List.mem_cons.1 hq with rfl | hq'
        · omega
        · have := hrest q hq'
          omega
      · have hlt : (i : Int) < p := lt_of_le_of_ne hi hip
        have harith : p.toNat - i = (p.toNat - (i + 1)) + 1 := by omega
        rw [harith, List.eraseIdx_cons_succ, idxFilter, idxFilter]
        have hcond : ((i : Int) ∈ p :: rest) ↔ ((i : Int) ∈ rest) := by
          constructor
          · intro hmem
            rcases List.mem_cons.1 hmem with heq | hmem'
            · exact absurd heq hip
            · exact hmem'
          · exact fun hmem => List.mem_cons_of_mem _ hmem
        have hih := ih (i + 1) (by omega)
          (by simp only [List.length_cons] at hub; push_cast at hub ⊢; omega)
        by_cases him : (i : Int) ∈ rest
        · rw [if_pos (hcond.2 him), if_pos him, hih]
        · rw [if_neg (fun habs => him (hcond.1 habs)), if_neg him, hih]

lemma removeGo_sorted (ps : List Int) (doc : List Page)
    (hsorted : List.Pairwise (fun a b => b < a) ps)
    (hrange : ∀ p ∈ ps, 0 ≤ p ∧ p < (doc.length : Int)) :
    removeGo doc ps = .ok (idxFilter ps 0 doc) ∧
      (idxFilter ps 0 doc).length = doc.length - ps.length := by
  induction ps generalizing doc with
  | nil =>
      rw [idxFilter_of_lt [] 0 doc (by simp)]
      exact ⟨rfl, by simp⟩
  | cons p rest ih =>
      obtain ⟨hp0, hplt⟩ := hrange p (List.mem_cons_self _ _)
      have hrlt : ∀ q ∈ rest, q < p :=
        fun q hq => (List.pairwise_cons.1 hsorted).1 q hq
      have herase : removePageAt doc p = .ok (doc.eraseIdx p.toNat) := by
        unfold removePageAt
        rw [if_pos ⟨hp0, hplt⟩]
      have hlen_erase : (doc.eraseIdx p.toNat).length = doc.length - 1 := by
        rw [List.length_eraseIdx, if_pos (by omega)]
      have ihres := ih (doc.eraseIdx p.toNat) (List.pairwise_cons.1 hsorted).2
        (fun q hq => ⟨(hrange q (List.mem_cons_of_mem _ hq)).1, by
          rw [hlen_erase]
          have h1 := hrlt q hq
          omega⟩)
      have hfilter : idxFilter (p :: rest) 0 doc =
          idxFilter rest 0 (doc.eraseIdx p.toNat) := by
        have := idxFilter_cons_erase p rest doc 0 (by omega) (by push_cast; omega) hrlt
        simpa using this
      constructor
      · show (match removePageAt doc p with
          | .error e => .error e
          | .ok doc' => removeGo doc' rest) =
          Except.ok (idxFilter (p :: rest) 0 doc)
        rw [herase]
        show removeGo (doc.eraseIdx p.toNat) rest = _
        rw [ihres.1, hfilter]
      · rw [hfilter, ihres.2, hlen_erase]
        simp only [List.length_cons]
        omega

/-- Claim C4: `remove` validates every index against the source page count
(rejecting any out-of-range index with an error before removing anything),
and for distinct in-range indices it succeeds with exactly the pages whose
index is not listed, in their original relative order; the resulting page
count is the original count minus the number of indices. -/
theorem remove_validates_and_filters (pdf : List Page) (pages : List Int)
    (hne : pages ≠ []) :
    ((∃ p ∈ pages, p < 0 ∨ (pdf.length : Int) ≤ p) →
      ∃ m, remove pdf pages = .error m) ∧
    (pages.Nodup → (∀ p ∈ pages, 0 ≤ p ∧ p < (pdf.length : Int)) →
      remove pdf pages = .ok (idxFilter pages 0 pdf) ∧
      (idxFilter pages 0 pdf).length = pdf.length - pages.length) := by
  constructor
  · intro h
    obtain ⟨p, hp, hbad⟩ := h
    exact ⟨_, by
      unfold remove
      rw [if_neg (by simpa using hne), if_pos]
      simp only [List.any_eq_true, decide_eq_true_eq]
      exact ⟨p, hp, by omega⟩⟩
  · intro hnd hrange
    have hrange' : ∀ p ∈ sortDesc pages, 0 ≤ p ∧ p < (pdf.length : Int) :=
      fun p hp => hrange p ((sortDesc_perm pages).mem_iff.1 hp)
    have hmain := removeGo_sorted (sortDesc pages) pdf
      (sortDesc_pairwise_lt pages hnd) hrange'
    have hfix : idxFilter (sortDesc pages) 0 pdf = idxFilter pages 0 pdf :=
      idxFilter_congr_mem _ _ (fun q => (sortDesc_perm pages).mem_iff) 0 pdf
    have hcount : (sortDesc pages).length = pages.length :=
      (sortDesc_perm pages).length_eq
    have hvalid : ¬ (pages.any fun page =>
        decide (page < 0 ∨ page ≥ (pdf.length : Int))) = true := by
      simp only [List.any_eq_true, decide_eq_true_eq, not_exists]
      intro p hp
      have h1 := hrange p hp.1
      have h2 := hp.2
      omega
    constructor
    · unfold remove
      rw [if_neg (by simpa using hne), if_neg hvalid, hmain.1, hfix]
    · rw [← hfix, hmain.2, hcount]

/-- Witness for C4: removing pages 0 and 2 of a three-page document leaves
exactly the middle page. -/
theorem remove_validates_and_filters_witness :
    remove [({ content := 0, rotation := 0 } : Page), { content := 1, rotation := 0 },
        { content := 2, rotation := 0 }] [2, 0] =
      .ok [({ content := 1, rotation := 0 } : Page)] ∧
    ([({ content := 1, rotation := 0 } : Page)] : List Page).length = 3 - 2 :=
  ((remove_validates_and_filters
    [{ content := 0, rotation := 0 }, { content := 1, rotation := 0 },
      { content := 2, rotation := 0 }] [2, 0] (by simp)).2
    (by decide) (by decide))

/-! ### Claim C3: insert -/

lemma insAsc_perm (x : List Page × Int) (l : List (List Page × Int)) :
    (insAsc x l).Perm (x :: l) := by
  induction l with
  | nil => exact List.Perm.refl _
  | cons y ys ih =>
      rw [insAsc]
      split_ifs with h
      · exact (ih.cons y).trans (List.Perm.swap x y ys)
      · exact List.Perm.refl _

lemma sortAsc_perm (l : List (List Page × Int)) : (sortAsc l).Perm l := by
  induction l with
  | nil => exact List.Perm.refl _
  | cons x xs ih => exact (insAsc_perm x (sortAsc xs)).trans (ih.cons x)

lemma insAsc_sorted (x : List Page × Int) (l : List (List Page × Int))
    (h : List.Pairwise (fun a b => a.2 ≤ b.2) l) :
    List.Pairwise (fun a b => a.2 ≤ b.2) (insAsc x l) := by
  induction l with
  | nil => simp [insAsc]
  | cons y ys ih =>
      obtain ⟨hy, hys⟩ := List.pairwise_cons.1 h
      rw [insAsc]
      split_ifs with hxy
      · refine List.pairwise_cons.2 ⟨?_, ih hys⟩
        intro b hb
        rcases List.mem_cons.1 ((insAsc_perm x ys).mem_iff.1 hb) with rfl | hbys
        · omega
        · exact hy b hbys
      · refine List.pairwise_cons.2 ⟨?_, h⟩
        intro b hb
        rcases List.mem_cons.1 hb with rfl | hbys
        · omega
        · have := hy b hbys
          omega

lemma sortAsc_sorted (l : List (List Page × Int)) :
    List.Pairwise (fun a b => a.2 ≤ b.2) (sortAsc l) := by
  induction l with
  | nil => exact List.Pairwise.nil
  | cons x xs ih => exact insAsc_sorted x (sortAsc xs) ih

lemma sortAsc_pairwise_lt (l : List (List Page × Int))
    (hnd : (l.map Prod.snd).Nodup) :
    List.Pairwise (fun a b => a.2 < b.2) (sortAsc l) := by
  have hperm : ((sortAsc l).map Prod.snd).Perm (l.map Prod.snd) :=
    (sortAsc_perm l).map Prod.snd
  have hnd' : ((sortAsc l).map Prod.snd).Nodup := hperm.symm.nodup hnd
  have hne : List.Pairwise (fun a b : List Page × Int => a.2 ≠ b.2) (sortAsc l) :=
    List.pairwise_map.1 hnd'
  exact ((sortAsc_sorted l).and hne).imp
    (fun hab => lt_of_le_of_ne hab.1 hab.2)

/-- A stable sort of entries with pairwise-distinct positions is determined
by the entry multiset: any two permutations of each other sort identically. -/
lemma sortAsc_eq_of_perm (l1 l2 : List (List Page × Int))
    (hperm : l1.Perm l2) (hnd : (l2.map Prod.snd).Nodup) :
    sortAsc l1 = sortAsc l2 := by
  haveI : IsAntisymm (List Page × Int) (fun a b => a.2 < b.2) :=
    ⟨fun a b h1 h2 => absurd (lt_trans h1 h2) (lt_irrefl _)⟩
  have hnd1 : (l1.map Prod.snd).Nodup := ((hperm.map Prod.snd).symm).nodup hnd
  exact List.eq_of_perm_of_sorted
    ((sortAsc_perm l1).trans (hperm.trans (sortAsc_perm l2).symm))
    (sortAsc_pairwise_lt l1 hnd1) (sortAsc_pairwise_lt l2 hnd)

/-- Spec-side assembly of Insert's guarantee: walking the ascending-sorted
entry list, each entry's pages are emitted immediately before the page that
sat at the entry's stated index in the original base document.  `rest` is the
not-yet-emitted suffix of the base and `k` the original index of its first
page. -/
def placeAll : List Page → List (List Page × Int) → Int → List Page
  | rest, [], _ => rest
  | rest, (ins, p) :: es, k =>
      rest.take (p - k).toNat ++ ins ++ placeAll (rest.drop (p - k).toNat) es p

/-- The offset-accumulating loop of `insert`, run on a sorted entry list,
computes exactly the spec-side assembly `placeAll`.  `C` is the already
rebuilt prefix (length `k + o`), `rest` the remaining original pages starting
at original index `k`, and `o` the running offset. -/
lemma insertGo_eq_placeAll (es : List (List Page × Int)) (C rest : List Page)
    (k o : Int) (hk : 0 ≤ k) (ho : 0 ≤ o)
    (hC : (C.length : Int) = k + o)
    (hsorted : List.Pairwise (fun a b => a.2 ≤ b.2) es)
    (hlb : ∀ e ∈ es, k ≤ e.2)
    (hub : ∀ e ∈ es, e.2 ≤ k + (rest.length : Int)) :
    insertGo (C ++ rest) es o = .ok (C ++ placeAll rest es k) := by
  induction es generalizing C rest k o with
  | nil => rw [insertGo, placeAll]
  | cons e es' ih =>
      obtain ⟨ins, p⟩ := e
      have hklep : k ≤ p := hlb _ (List.mem_cons_self _ _)
      have hple : p ≤ k + (rest.length : Int) := hub _ (List.mem_cons_self _ _)
      have hj : (p - k).toNat ≤ rest.length := by omega
      simp only [insertGo]
      rw [if_neg (by simp only [List.length_append]; push_cast; omega)]
      have htoNat : (p + o).toNat = C.length + (p - k).toNat := by omega
      rw [htoNat, List.take_append, List.drop_append]
      have hih := ih (C ++ rest.take (p - k).toNat ++ ins)
        (rest.drop (p - k).toNat) p (o + (ins.length : Int))
        (le_trans hk hklep) (by positivity)
        (by simp only [List.length_append, List.length_take]
            push_cast
            omega)
        (List.pairwise_cons.1 hsorted).2
        (fun q hq => (List.pairwise_cons.1 hsorted).1 q hq)
        (fun q hq => by
          have := hub q (List.mem_cons_of_mem _ hq)
          simp only [List.length_drop]
          omega)
      rw [placeAll]
      simpa [List.append_assoc] using hih

/-- When the remaining base suffix is nonempty and every pending entry sits
strictly past index `k`, the assembly starts with the suffix's first page. -/
lemma placeAll_head (rest : List Page) (es : List (List Page × Int)) (k : Int)
    (hne : rest ≠ []) (hgt : ∀ e ∈ es, k < e.2) :
    ∃ suf, placeAll rest es k = rest.getD 0 default :: suf := by
  cases es with
  | nil =>
      cases rest with
      | nil => exact absurd rfl hne
      | cons r t => exact ⟨t, rfl⟩
  | cons e es' =>
      obtain ⟨ins, p⟩ := e
      cases rest with
      | nil => exact absurd rfl hne
      | cons r t =>
          have hp : k < p := hgt _ (List.mem_cons_self _ _)
          have harith : (p - k).toNat = (p - k - 1).toNat + 1 := by omega
          rw [placeAll, harith, List.take_succ_cons]
          exact ⟨_, rfl⟩

/-- Each entry of a strictly-sorted entry list shows up in the assembly as a
contiguous block immediately followed by the original page at its stated
index (or at the very end when the index is the page count). -/
lemma placeAll_block (es : List (List Page × Int)) (rest : List Page) (k : Int)
    (hsorted : List.Pairwise (fun a b => a.2 < b.2) es)
    (hlb : ∀ e ∈ es, k ≤ e.2) (hub : ∀ e ∈ es, e.2 ≤ k + (rest.length : Int))
    (e : List Page × Int) (he : e ∈ es) :
    (e.2 < k + (rest.length : Int) → ∃ pre suf,
      placeAll rest es k = pre ++ e.1 ++ rest.getD (e.2 - k).toNat default :: suf) ∧
    (e.2 = k + (rest.length : Int) → ∃ pre,
      placeAll rest es k = pre ++ e.1) := by
  induction es generalizing rest k with
  | nil => cases he
  | cons e0 es' ih =>
      obtain ⟨ins, p⟩ := e0
      have hklep : k ≤ p := hlb _ (List.mem_cons_self _ _)
      have hple : p ≤ k + (rest.length : Int) := hub _ (List.mem_cons_self _ _)
      rcases List.mem_cons.1 he with rfl | he'
      · constructor
        · intro hlt
          have hjlt : (p - k).toNat < rest.length := by omega
          have hd : rest.drop (p - k).toNat ≠ [] := by
            intro habs
            have := congrArg List.length habs
            simp only [List.length_drop, List.length_nil] at this
            omega
          obtain ⟨suf, hsuf⟩ := placeAll_head (rest.drop (p - k).toNat) es' p hd
            (fun q hq => (List.pairwise_cons.1 hsorted).1 q hq)
          have hgd : (rest.drop (p - k).toNat).getD 0 default =
              rest.getD (p - k).toNat default := by
            rw [List.getD_eq_getElem?_getD, List.getD_eq_getElem?_getD,
              List.getElem?_drop, Nat.add_zero]
          rw [placeAll, hsuf, hgd]
          exact ⟨rest.take (p - k).toNat, suf, by simp [List.append_assoc]⟩
        · intro heq
          have hes' : es' = [] := by
            rw [List.eq_nil_iff_forall_not_mem]
            intro q hq
            have h1 := (List.pairwise_cons.1 hsorted).1 q hq
            have h2 := hub q (List.mem_cons_of_mem _ hq)
            omega
          subst hes'
          have hj : (p - k).toNat = rest.length := by omega
          rw [placeAll, hj, List.take_length, List.drop_length, placeAll]
          exact ⟨rest, by simp⟩
      · have hpe : p < e.2 := (List.pairwise_cons.1 hsorted).1 e he'
        have ihres := ih (rest.drop (p - k).toNat) p
          (List.pairwise_cons.1 hsorted).2
          (fun q hq => le_of_lt ((List.pairwise_cons.1 hsorted).1 q hq))
          (fun q hq => by
            have := hub q (List.mem_cons_of_mem _ hq)
            simp only [List.length_drop]
            omega)
          he'
        have hlen_eq : p + ((rest.drop (p - k).toNat).length : Int) =
            k + (rest.length : Int) := by
          simp only [List.length_drop]
          omega
        constructor
        · intro hlt
          obtain ⟨pre, suf, hps⟩ := ihres.1 (by omega)
          have hgd : (rest.drop (p - k).toNat).getD (e.2 - p).toNat default =
              rest.getD (e.2 - k).toNat default := by
            rw [List.getD_eq_getElem?_getD, List.getD_eq_getElem?_getD,
              List.getElem?_drop]
            have : (p - k).toNat + (e.2 - p).toNat = (e.2 - k).toNat := by omega
            rw [this]
          rw [hgd] at hps
          rw [placeAll, hps]
          exact ⟨rest.take (p - k).toNat ++ ins ++ pre, suf, by
            simp [List.append_assoc]⟩
        · intro heq
          obtain ⟨pre, hp2⟩ := ihres.2 (by omega)
          rw [placeAll, hp2]
          exact ⟨rest.take (p - k).toNat ++ ins ++ pre, by
            simp [List.append_assoc]⟩

/-- Claim C3 (amended with pairwise-distinct positions): `insert` sorts the
entries ascending by position and applies them with a running offset equal to
the page count of the previously applied insertions; for distinct positions
within `[0, original page count]` it succeeds with exactly the spec-side
assembly `placeAll`, the result is independent of the order the entries are
given in, and each entry's pages form one contiguous block immediately
preceding the page that was at original index `p` (at the very end when `p`
equals the original page count). -/
theorem insert_blocks_before_original (base : List Page)
    (entries : List (List Page × Int))
    (hdist : (entries.map Prod.snd).Nodup)
    (hrange : ∀ e ∈ entries, 0 ≤ e.2 ∧ e.2 ≤ (base.length : Int)) :
    insert base entries = .ok (placeAll base (sortAsc entries) 0) ∧
    (∀ entries', entries'.Perm entries →
      insert base entries' = insert base entries) ∧
    (∀ e ∈ entries,
      (e.2 < (base.length : Int) → ∃ pre suf, insert base entries =
        .ok (pre ++ e.1 ++ base.getD e.2.toNat default :: suf)) ∧
      (e.2 = (base.length : Int) → ∃ pre,
        insert base entries = .ok (pre ++ e.1))) := by
  have hmem : ∀ e ∈ sortAsc entries, e ∈ entries :=
    fun e he => (sortAsc_perm entries).mem_iff.1 he
  have hmain : insert base entries = .ok (placeAll base (sortAsc entries) 0) := by
    have := insertGo_eq_placeAll (sortAsc entries) [] base 0 0 le_rfl le_rfl
      (by simp) (sortAsc_sorted entries)
      (fun e he => (hrange e (hmem e he)).1)
      (fun e he => by
        have := (hrange e (hmem e he)).2
        simpa using this)
    simpa using this
  refine ⟨hmain, ?_, ?_⟩
  · intro entries' hperm
    unfold insert
    rw [sortAsc_eq_of_perm entries' entries hperm hdist]
  · intro e he
    have hperm_mem : e ∈ sortAsc entries := (sortAsc_perm entries).mem_iff.2 he
    have hblock := placeAll_block (sortAsc entries) base 0
      (sortAsc_pairwise_lt entries hdist)
      (fun q hq => (hrange q (hmem q hq)).1)
      (fun q hq => by
        have := (hrange q (hmem q hq)).2
        simpa using this)
      e hperm_mem
    constructor
    · intro hlt
      obtain ⟨pre, suf, hps⟩ := hblock.1 (by simpa using hlt)
      refine ⟨pre, suf, ?_⟩
      rw [hmain, hps]
      have : (e.2 - 0).toNat = e.2.toNat := by omega
      rw [this]
    · intro heq
      obtain ⟨pre, hp2⟩ := hblock.2 (by simpa using heq)
      refine ⟨pre, ?_⟩
      rw [hmain, hp2]

/-- Witness for C3 at a concrete input: inserting a one-page document at
position 1 of a two-page base lands it between the two original pages. -/
theorem insert_blocks_before_original_witness :
    insert [({ content := 0, rotation := 0 } : Page), { content := 1, rotation := 0 }]
        [([({ content := 5, rotation := 0 } : Page)], 1)] =
      .ok [({ content := 0, rotation := 0 } : Page), { content := 5, rotation := 0 },
        { content := 1, rotation := 0 }] :=
  (insert_blocks_before_original
    [{ content := 0, rotation := 0 }, { content := 1, rotation := 0 }]
    [([{ content := 5, rotation := 0 }], 1)]
    (by decide) (by decide)).1

end Manipulator
